import Mathlib

/-!
# Verification of the RegulatorPro field matching and deduplication engine

Shallow embedding of the core matching engine of the repository:

* `backend/field_matcher.py`   — `FieldMatcher` (exact key / alias / fuzzy matching)
* `backend/purpose_matcher.py` — `PurposeMatcher` (purpose taxonomy classifier and matcher)
* `backend/field_validator.py` — `FieldValidator` and `FieldDeduplicator`
* `backend/field_library_import.py` — CSV import write paths (category construction only)
* `backend/app.py`             — the `create_application_type` matching loop

Python strings are modelled as Lean `String` / `List Char`; the catalog
(`FieldLibrary.query`) is modelled as a `List LibField` enumerated in query
order, with `filter_by(...).first()` as `List.find?` and `.all()` as the list
itself.  Python float scores are modelled as exact rationals (`ℚ`); every
score in the engine is a small sum of the literals 0.2, 0.3, 0.5, 0.95 or a
ratio `2*m/(la+lb)`, and all comparisons proved concretely here are exact in
both models.  `str.lower` is modelled by `Char.toLower` (the engine only
lowercases ASCII field names).  `difflib.SequenceMatcher.ratio` is modelled
by `seqRatio` below: the strings compared by the engine are far shorter than
200 characters, so the autojunk heuristic of `difflib` is inert and `ratio`
is the classic recursive longest-matching-block computation.
-/

/-! ## Character and list utilities -/

/-- Characters kept by the `re.sub(r'[^a-z0-9_]', '', key)` strip in
`normalize_field_key`: lowercase ASCII letters, digits, underscore. -/
def isKeyChar (c : Char) : Bool :=
  (97 ≤ c.toNat && c.toNat ≤ 122) || (48 ≤ c.toNat && c.toNat ≤ 57) || (c.toNat == 95)

/-- `str.replace(' ', '_').replace('-', '_')` applied characterwise. -/
def replUnd (c : Char) : Char :=
  if c == ' ' || c == '-' then '_' else c

/-- `re.sub(r'_+', '_', key)`: collapse each run of underscores to one. -/
def squeezeUnd : List Char → List Char
  | [] => []
  | [c] => [c]
  | a :: b :: t =>
    if a == '_' && b == '_' then squeezeUnd (b :: t) else a :: squeezeUnd (b :: t)

/-- `str.strip('_')`: drop leading and trailing underscores. -/
def trimUnd (l : List Char) : List Char :=
  (((l.dropWhile (· == '_')).reverse.dropWhile (· == '_'))).reverse

/-- The full `normalize_field_key` character pipeline shared verbatim by
`FieldMatcher.normalize_field_key` (field_matcher.py lines 35-42) and
`FieldValidator.normalize_field_key` (field_validator.py lines 67-70):
lowercase, spaces and hyphens to underscore, strip other characters,
collapse runs of underscores, strip leading/trailing underscores. -/
def normKeyChars (l : List Char) : List Char :=
  trimUnd (squeezeUnd (((l.map Char.toLower).map replUnd).filter isKeyChar))

/-- Python `needle in haystack` for strings: contiguous substring test. -/
def isSubL (n : List Char) : List Char → Bool
  | [] => n.isPrefixOf []
  | c :: t => n.isPrefixOf (c :: t) || isSubL n t

/-- Characters that Python `\s` matches inside the ASCII range. -/
def isPyWs (c : Char) : Bool :=
  c == ' ' || c == '\t' || c == '\n' || c == '\x0d' || c == '\x0b' || c == '\x0c'

/-- `str.split()` (split on whitespace runs, dropping empty words),
restricted to the word list. -/
def wsWords : List Char → List (List Char)
  | [] => []
  | c :: t =>
    if isPyWs c then wsWords t
    else
      match wsWords t with
      | [] => [[c]]
      | w :: ws => if isPyWs (t.headD ' ') then [c] :: w :: ws else (c :: w) :: ws

/-- `' '.join(words)`. -/
def joinSp (ws : List (List Char)) : List Char :=
  match ws with
  | [] => []
  | w :: ws => w ++ ws.foldl (fun acc v => acc ++ ' ' :: v) []

/-! ## `difflib.SequenceMatcher` ratio

`find_longest_match` over `a[alo:ahi]` and `b[blo:bhi]` returns the longest
matching block, preferring the earliest start in `a` and then in `b`; with no
junk (strings shorter than 200 characters) this is the entire algorithm.
`extRun` computes the length of the common run starting at `(i, j)`, clipped
to the bounds; fuel arguments make the recursions structural. -/

/-- Length of the common character run of `a` and `b` starting at `i`, `j`,
clipped to `ahi`, `bhi`. -/
def extRun : Nat → List Char → List Char → Nat → Nat → Nat → Nat → Nat
  | 0, _, _, _, _, _, _ => 0
  | fuel + 1, a, b, i, j, ahi, bhi =>
    if i < ahi && j < bhi && (a.getD i ' ' == b.getD j ' ') then
      1 + extRun fuel a b (i + 1) (j + 1) ahi bhi
    else 0

/-- `SequenceMatcher.find_longest_match` on the slices `[alo:ahi]`, `[blo:bhi]`:
the triple `(i, j, k)` with maximal `k`, ties resolved to the smallest `i`
and then the smallest `j`; `(alo, blo, 0)` when there is no match. -/
def flm (a b : List Char) (alo ahi blo bhi : Nat) : Nat × Nat × Nat :=
  (List.range' alo (ahi - alo)).foldl (fun best i =>
    (List.range' blo (bhi - blo)).foldl (fun best j =>
      let k := extRun (ahi + 1) a b i j ahi bhi
      if k > best.2.2 then (i, j, k) else best) best)
    (alo, blo, 0)

/-- Total size of all matching blocks (`get_matching_blocks` recursion):
take the longest match, recurse on the pieces to its left and right. -/
def matchSum : Nat → List Char → List Char → Nat → Nat → Nat → Nat → Nat
  | 0, _, _, _, _, _, _ => 0
  | fuel + 1, a, b, alo, ahi, blo, bhi =>
    let r := flm a b alo ahi blo bhi
    if r.2.2 == 0 then 0
    else
      r.2.2 + matchSum fuel a b alo r.1 blo r.2.1 +
        matchSum fuel a b (r.1 + r.2.2) ahi (r.2.1 + r.2.2) bhi

/-- `SequenceMatcher(None, a, b).ratio() = 2 * M / (len(a) + len(b))`
(`1.0` when both strings are empty, as in `difflib._calculate_ratio`). -/
def seqRatio (a b : List Char) : ℚ :=
  if a.length + b.length == 0 then 1
  else
    (2 * (matchSum (a.length + b.length + 1) a b 0 a.length 0 b.length) : ℚ) /
      (a.length + b.length)

/-- `SequenceMatcher` ratio of two Lean strings. -/
def strRatio (a b : String) : ℚ := seqRatio a.toList b.toList

/-- `s.lower()` on a Lean string (ASCII, as used by the engine). -/
def strLower (s : String) : String := ⟨s.toList.map Char.toLower⟩

/-! ## Data model

A catalog entry (`FieldLibrary` row).  Only the columns the matching engine
reads are modelled; `options`, timestamps and free-text columns never
influence a match decision. -/

structure LibField where
  id : Nat
  field_key : String
  canonical_name : String
  field_type : String
  category : String
  usage_count : Nat
  common_aliases : List String
deriving DecidableEq, Repr

/-- `query.filter_by(field_key=k).first()` on a catalog enumerated in query
order. -/
def findByKey (catalog : List LibField) (k : String) : Option LibField :=
  catalog.find? (fun f => f.field_key == k)

/-! ## `FieldMatcher` (backend/field_matcher.py) -/

namespace FieldMatcher

/-- `FieldMatcher.FIELD_ALIASES` (field_matcher.py lines 13-33), in source
order. -/
def FIELD_ALIASES : List (String × List String) := [
  ("first_name", ["firstname", "fname", "given_name", "forename"]),
  ("last_name", ["lastname", "lname", "surname", "family_name"]),
  ("middle_name", ["middlename", "mname", "middle_initial"]),
  ("email", ["email_address", "e_mail", "emailaddress"]),
  ("phone", ["phone_number", "telephone", "tel", "phonenumber", "mobile"]),
  ("address", ["street_address", "street", "address_line_1", "addr"]),
  ("city", ["municipality", "town"]),
  ("state", ["province", "region", "state_province"]),
  ("zip_code", ["zipcode", "postal_code", "postcode", "zip"]),
  ("date_of_birth", ["dateofbirth", "dob", "birth_date", "birthdate"]),
  ("social_security_number", ["socialsecurity", "ssn", "social_security", "ss_number"]),
  ("graduation_date", ["graduationdate", "grad_date", "date_graduated"]),
  ("years_of_experience", ["yearsexperience", "experience_years", "years_experience"]),
  ("current_employer", ["currentemployer", "employer", "employer_name"]),
  ("military_spouse", ["militaryspouse", "military_spouse_status"]),
  ("criminal_history", ["criminalhistory", "criminal_record", "has_criminal_history"]),
  ("criminal_history_details", ["criminalhistorydetails", "criminal_details"]),
  ("disciplinary_action", ["disciplinaryaction", "disciplinary_history", "has_disciplinary_action"]),
  ("disciplinary_action_details", ["disciplinaryactiondetails", "disciplinary_details"])]

/-- `FieldMatcher.normalize_field_key` (field_matcher.py lines 35-42). -/
def normalize_field_key (field_name : String) : String :=
  ⟨normKeyChars field_name.toList⟩

/-- The alias loop of `find_match` (field_matcher.py lines 57-68): scan the
alias table in order; for each entry triggered by the normalized key, look
up the canonical key and then each alias in the catalog; the first catalog
hit wins. -/
def aliasLookup (catalog : List LibField) (field_key : String) : Option LibField :=
  FIELD_ALIASES.foldl (fun acc p =>
    match acc with
    | some _ => acc
    | none =>
      if p.2.contains field_key || field_key == p.1 then
        match findByKey catalog p.1 with
        | some f => some f
        | none => p.2.foldl (fun a2 al =>
            match a2 with
            | some _ => a2
            | none => findByKey catalog al) none
      else none) none

/-- One step of the fuzzy scan of `find_match` (field_matcher.py lines
75-92): compare normalized keys, then lowercased canonical names, keeping a
strictly greater score. -/
def fuzzyStep (fk : String) (field_name : String)
    (st : Option LibField × ℚ) (f : LibField) : Option LibField × ℚ :=
  let sim1 := strRatio fk f.field_key
  let st1 := if sim1 > st.2 then (some f, sim1) else st
  let sim2 := seqRatio (strLower field_name).toList (strLower f.canonical_name).toList
  if sim2 > st1.2 then (some f, sim2) else st1

/-- `FieldMatcher.find_match` (field_matcher.py lines 44-99).
Returns `(field, confidence, match_type)`. -/
def find_match (field_name : String) (catalog : List LibField) :
    Option LibField × ℚ × Option String :=
  let fk := normalize_field_key field_name
  match findByKey catalog fk with
  | some f => (some f, 1, some "exact_key")
  | none =>
    match aliasLookup catalog fk with
    | some f => (some f, 95 / 100, some "alias_match")
    | none =>
      let st := catalog.foldl (fuzzyStep fk field_name) (none, 0)
      if st.2 ≥ 8 / 10 then (st.1, st.2, some "fuzzy_match")
      else (none, 0, none)

end FieldMatcher

/-! ## `PurposeMatcher` (backend/purpose_matcher.py) -/

/-- One entry of the purpose taxonomy. -/
structure PurposeDef where
  keywords : List String
  field_type : String
  data_type : String
  category : String
deriving DecidableEq, Repr

namespace PurposeMatcher

/-- `PurposeMatcher.FIELD_PURPOSES` (purpose_matcher.py lines 17-199), in
source (dict insertion) order. -/
def FIELD_PURPOSES : List (String × PurposeDef) := [
  ("identification.first_name",
    ⟨["first", "given", "forename", "fname"], "text", "string", "Personal Information"⟩),
  ("identification.last_name",
    ⟨["last", "surname", "family", "lname"], "text", "string", "Personal Information"⟩),
  ("identification.middle_name",
    ⟨["middle", "mname", "initial"], "text", "string", "Personal Information"⟩),
  ("identification.ssn",
    ⟨["ssn", "social", "security", "tax", "tin"], "text", "string", "Personal Information"⟩),
  ("identification.dob",
    ⟨["birth", "dob", "born"], "date", "date", "Personal Information"⟩),
  ("contact.email",
    ⟨["email", "e-mail", "mail"], "email", "string", "Contact Information"⟩),
  ("contact.phone",
    ⟨["phone", "telephone", "mobile", "cell", "tel"], "phone", "string", "Contact Information"⟩),
  ("contact.address",
    ⟨["address", "street", "addr"], "text", "string", "Contact Information"⟩),
  ("contact.city",
    ⟨["city", "municipality", "town"], "text", "string", "Contact Information"⟩),
  ("contact.state",
    ⟨["state", "province", "region"], "select", "string", "Contact Information"⟩),
  ("contact.zip",
    ⟨["zip", "postal", "postcode"], "text", "string", "Contact Information"⟩),
  ("education.school",
    ⟨["school", "university", "college", "institution", "alma"], "text", "string", "Education"⟩),
  ("education.degree",
    ⟨["degree", "diploma", "certification"], "text", "string", "Education"⟩),
  ("education.graduation_date",
    ⟨["graduation", "graduated", "completion"], "date", "date", "Education"⟩),
  ("examination.exam_name",
    ⟨["exam", "test", "assessment"], "text", "string", "Examination"⟩),
  ("examination.exam_date",
    ⟨["exam", "test"], "date", "date", "Examination"⟩),
  ("examination.exam_score",
    ⟨["score", "result", "grade"], "number", "number", "Examination"⟩),
  ("professional.license_number",
    ⟨["license", "licence", "registration", "permit"], "text", "string", "Professional Background"⟩),
  ("professional.employer",
    ⟨["employer", "company", "organization", "firm"], "text", "string", "Professional Background"⟩),
  ("professional.years_experience",
    ⟨["experience", "years", "practice"], "number", "number", "Professional Background"⟩),
  ("compliance.attestation",
    ⟨["attest", "certify", "declare", "affirm", "swear"], "checkbox", "boolean", "Compliance & Declarations"⟩),
  ("compliance.consent",
    ⟨["consent", "agree", "authorize", "permission"], "checkbox", "boolean", "Compliance & Declarations"⟩),
  ("compliance.criminal_history",
    ⟨["criminal", "conviction", "felony", "misdemeanor"], "checkbox", "boolean", "Compliance & Declarations"⟩),
  ("compliance.criminal_details",
    ⟨["criminal", "conviction", "details", "explain"], "textarea", "string", "Compliance & Declarations"⟩),
  ("compliance.disciplinary_action",
    ⟨["disciplinary", "sanction", "suspension", "revocation"], "checkbox", "boolean", "Compliance & Declarations"⟩),
  ("compliance.disciplinary_details",
    ⟨["disciplinary", "details", "explain"], "textarea", "string", "Compliance & Declarations"⟩),
  ("waiver.military_spouse",
    ⟨["military", "spouse", "veteran"], "checkbox", "boolean", "Fee Waivers"⟩),
  ("waiver.poverty",
    ⟨["poverty", "indigent", "hardship", "financial"], "checkbox", "boolean", "Fee Waivers"⟩)]

/-- The filler tokens stripped from the front of a name
(purpose_matcher.py line 211). -/
def fillerPres : List String :=
  ["legal", "formal", "official", "full", "complete", "applicant", "your"]

/-- The filler tokens stripped from the back of a name
(purpose_matcher.py line 212). -/
def fillerSufs : List String := ["required", "optional", "if applicable"]

/-- Characters kept as themselves by `re.sub(r'[^a-z0-9\s]', ' ', s)`. -/
def isNameChar (c : Char) : Bool :=
  (97 ≤ c.toNat && c.toNat ≤ 122) || (48 ≤ c.toNat && c.toNat ≤ 57) || isPyWs c

/-- `PurposeMatcher.normalize_field_name` (purpose_matcher.py lines 201-228)
on character lists: lowercase, strip each filler token once from the
front/back, replace remaining special characters by spaces, collapse
whitespace. -/
def normNameChars (l : List Char) : List Char :=
  let low := l.map Char.toLower
  let p1 := fillerPres.foldl (fun s p =>
    let pc := p.toList ++ [' ']
    if pc.isPrefixOf s then s.drop pc.length else s) low
  let p2 := fillerSufs.foldl (fun s p =>
    let pc := ' ' :: p.toList
    if pc.isSuffixOf s then s.take (s.length - pc.length) else s) p1
  joinSp (wsWords (p2.map (fun c => if isNameChar c then c else ' ')))

/-- `PurposeMatcher.normalize_field_name` on strings. -/
def normalize_field_name (name : String) : String := ⟨normNameChars name.toList⟩

/-- The score `detect_purpose` gives one purpose (purpose_matcher.py lines
241-258): +10 per keyword substring of the normalized name, +5 more when the
keyword is the whole name or a whole leading/trailing word, +20 when the
supplied type equals the declared `field_type`. -/
def purposeScoreN (norm : List Char) (ty : Option String) (pd : PurposeDef) : Nat :=
  pd.keywords.foldl (fun s kw =>
    if isSubL kw.toList norm then
      s + 10 +
        (if norm = kw.toList || (kw.toList ++ [' ']).isPrefixOf norm ||
            (' ' :: kw.toList).isSuffixOf norm then 5 else 0)
    else s) 0
  + (if ty == some pd.field_type then 20 else 0)

/-- `max(scores.items(), key=lambda x: x[1])` on a nonempty association
list: the first pair with maximal value (Python `max` keeps the earliest of
equally scored items). -/
def maxFirst : List (String × Nat) → Option (String × Nat)
  | [] => none
  | x :: t => some (t.foldl (fun b y => if y.2 > b.2 then y else b) x)

/-- `PurposeMatcher.detect_purpose` (purpose_matcher.py lines 230-266). -/
def detect_purpose (field_name : String) (field_type : Option String) : Option String :=
  let norm := normNameChars field_name.toList
  let scored := FIELD_PURPOSES.filterMap (fun kp =>
    let s := purposeScoreN norm field_type kp.2
    if s > 0 then some (kp.1, s) else none)
  match maxFirst scored with
  | some best => if best.2 ≥ 10 then some best.1 else none
  | none => none

/-- The scored-purposes list built inside `detect_purpose` (the insertion
order of the Python `scores` dict): each purpose with a positive score,
paired with its score, in taxonomy order. -/
def scoredPurposes (field_name : String) (field_type : Option String) :
    List (String × Nat) :=
  FIELD_PURPOSES.filterMap (fun kp =>
    let s := purposeScoreN (normNameChars field_name.toList) field_type kp.2
    if s > 0 then some (kp.1, s) else none)

/-- The score `PurposeMatcher.find_match` gives one candidate
(purpose_matcher.py lines 302-321): +0.3 per keyword substring of its
`field_key`, +0.2 per keyword substring of its normalized `canonical_name`,
+0.5 when its normalized `field_key` equals the normalized input name. -/
def candScore (field_name : String) (pd : PurposeDef) (c : LibField) : ℚ :=
  let s1 := pd.keywords.foldl (fun s kw =>
    if isSubL kw.toList c.field_key.toList then s + 3 / 10 else s) 0
  let normCanon := normNameChars c.canonical_name.toList
  let s2 := pd.keywords.foldl (fun s kw =>
    if isSubL kw.toList normCanon then s + 2 / 10 else s) s1
  s2 + (if normNameChars c.field_key.toList = normNameChars field_name.toList
        then 1 / 2 else 0)

/-- `PurposeMatcher.find_match` (purpose_matcher.py lines 268-331).
Returns `(field, confidence, match_type)`. -/
def find_match (field_name : String) (field_type : String)
    (catalog : List LibField) : Option LibField × ℚ × Option String :=
  match detect_purpose field_name (some field_type) with
  | none => (none, 0, none)
  | some purpose =>
    match FIELD_PURPOSES.lookup purpose with
    | none => (none, 0, none)
    | some pd =>
      let candidates := catalog.filter (fun f =>
        f.category == pd.category && f.field_type == field_type)
      if candidates.isEmpty then (none, 0, none)
      else
        let st := candidates.foldl (fun st c =>
          let sc := candScore field_name pd c
          if sc > st.2 then (some c, sc) else st) ((none : Option LibField), (0 : ℚ))
        if st.2 ≥ 1 / 2 then (st.1, min st.2 1, some "purpose_match")
        else (none, 0, none)

/-- The last `.`-separated component of a purpose key
(`purpose.split('.')[-1]`, purpose_matcher.py line 344). -/
def lastDotComp (s : String) : String :=
  ⟨s.toList.foldl (fun acc c => if c == '.' then [] else acc ++ [c]) []⟩

/-- `PurposeMatcher.suggest_field_key` (purpose_matcher.py lines 333-352):
the tail of the detected purpose, else the normalized name snake_cased,
else the literal fallback `custom_field`. -/
def suggest_field_key (field_name : String) (field_type : String) : String :=
  match detect_purpose field_name (some field_type) with
  | some purpose => lastDotComp purpose
  | none =>
    let l := (normNameChars field_name.toList).map (fun c => if c == ' ' then '_' else c)
    let fk := trimUnd (squeezeUnd (l.filter isKeyChar))
    if fk = [] then "custom_field" else ⟨fk⟩

/-- `PurposeMatcher.suggest_category` (purpose_matcher.py lines 354-374):
the detected purpose category, else a fallback keyed on the field type. -/
def suggest_category (field_name : String) (field_type : String) : String :=
  match detect_purpose field_name (some field_type) with
  | some purpose =>
    match FIELD_PURPOSES.lookup purpose with
    | some pd => pd.category
    | none =>
      if field_type == "checkbox" then "Compliance & Declarations"
      else if field_type == "email" || field_type == "phone" then "Contact Information"
      else if field_type == "date" then "Personal Information"
      else "Other"
  | none =>
    if field_type == "checkbox" then "Compliance & Declarations"
    else if field_type == "email" || field_type == "phone" then "Contact Information"
    else if field_type == "date" then "Personal Information"
    else "Other"

end PurposeMatcher

/-! ## `FieldValidator` (backend/field_validator.py) -/

namespace FieldValidator

/-- `FieldValidator.STANDARD_CATEGORIES` (field_validator.py lines 27-36). -/
def STANDARD_CATEGORIES : List String := [
  "Personal Information",
  "Contact Information",
  "Education",
  "Examination",
  "Professional Background",
  "Fee Waivers",
  "Compliance & Declarations",
  "Other"]

/-- `FieldValidator.normalize_field_key` (field_validator.py lines 53-75):
the same character pipeline as `FieldMatcher.normalize_field_key`, but it
raises `ValueError` on an empty input and on an input whose normalization is
empty.  (`validate_ufl_field`, lines 161-164, catches this `ValueError` and
re-raises the collected errors as a `ValidationError`.) -/
def normalize_field_key (raw_name : String) : Except String String :=
  if raw_name == "" then .error "Field name cannot be empty"
  else
    let key : String := ⟨normKeyChars raw_name.toList⟩
    if key == "" then
      .error "Field name produces empty key after normalization"
    else .ok key

/-- The fuzzy scan of `normalize_category` (field_validator.py lines
100-113): best `SequenceMatcher` ratio between the lowercased input and each
lowercased standard category, keeping a strictly greater score. -/
def bestCat (raw : String) : Option String × ℚ :=
  STANDARD_CATEGORIES.foldl (fun st c =>
    let sim := seqRatio (strLower raw).toList (strLower c).toList
    if sim > st.2 then (some c, sim) else st) ((none : Option String), (0 : ℚ))

/-- `FieldValidator.normalize_category` (field_validator.py lines 87-120):
the input itself when it is a standard category, else the fuzzy-nearest
standard category when its score is at least 0.7, else `Other`. -/
def normalize_category (raw : String) : String :=
  if raw == "" then "Other"
  else if raw ∈ STANDARD_CATEGORIES then raw
  else
    let st := bestCat raw
    if st.2 ≥ 7 / 10 then st.1.getD "Other" else "Other"

end FieldValidator

/-! ## `FieldDeduplicator.merge_fields` (backend/field_validator.py lines 317-350)

Modelled as the pure transformation of the primary row: union the aliases of
the duplicate into the primary (appending, in order, each alias of the
duplicate not already present — skipped entirely when the duplicate has no
aliases, since an empty list is falsy in Python) and add the usage counts.
The reference repointing and the deletion of the duplicate row touch other
tables and do not affect the primary row itself. -/

namespace FieldDeduplicator

/-- The alias list of the primary after the merge. -/
def mergedAliases (primary dup : LibField) : List String :=
  if dup.common_aliases.isEmpty then primary.common_aliases
  else dup.common_aliases.foldl (fun acc a =>
    if acc.contains a then acc else acc ++ [a]) primary.common_aliases

/-- `FieldDeduplicator.merge_fields`: the primary row after the merge. -/
def merge_fields (primary dup : LibField) : LibField :=
  { primary with
      common_aliases := mergedAliases primary dup,
      usage_count := primary.usage_count + dup.usage_count }

end FieldDeduplicator

/-! ## CSV import write paths (backend/field_library_import.py)

Only the category-relevant construction of new catalog rows is modelled;
`options`, descriptions and timestamps never influence the category. -/

namespace FieldLibraryImporter

/-- The new-field creation of `import_reference_data`
(field_library_import.py lines 204-221): reference-data columns are created
with the hard-coded category `Reference Data`. -/
def referenceDataField (field_key canonical : String) (board : Option String) : LibField :=
  { id := 0, field_key := field_key, canonical_name := canonical,
    field_type := "select", category := "Reference Data",
    usage_count := 0, common_aliases := [] }

/-- The new-field creation of `import_field_definitions`
(field_library_import.py lines 277-291): the category is taken verbatim
from the CSV row, defaulting to `General` when the column is absent. -/
def definitionField (field_key : String)
    (canonical ftype dtype category : Option String) (board : Option String) : LibField :=
  { id := 0, field_key := field_key,
    canonical_name := canonical.getD field_key,
    field_type := ftype.getD "text",
    category := category.getD "General",
    usage_count := 0, common_aliases := [] }

end FieldLibraryImporter

/-! ## Generic machinery: the strict-greater selection fold

Every best-candidate scan in the engine (`find_match` fuzzy loop, the
`PurposeMatcher` candidate loop, `normalize_category`) is a left fold that
replaces the current best only on a strictly greater score, starting from
`(None, 0.0)`.  `pickAcc` is that fold, abstracted over the score
function. -/

/-- The strict-greater selection fold shared by the candidate scans. -/
def pickAcc {α : Type} (f : α → ℚ) (st : Option α × ℚ) (l : List α) : Option α × ℚ :=
  l.foldl (fun st a => if f a > st.2 then (some a, f a) else st) st

/-- The effective score of one catalog entry in the fuzzy scan of
`FieldMatcher.find_match`: the larger of the key similarity and the
canonical-name similarity. -/
def fmScore (fk field_name : String) (f : LibField) : ℚ :=
  max (strRatio fk f.field_key)
    (seqRatio (strLower field_name).toList (strLower f.canonical_name).toList)

/-- The score `normalize_category` gives one standard category. -/
def catScore (raw c : String) : ℚ :=
  seqRatio (strLower raw).toList (strLower c).toList

/-- No two adjacent underscores (the shape `re.sub(r'_+', '_', ...)`
guarantees). -/
def okRun : List Char → Prop
  | [] => True
  | [_] => True
  | a :: b :: t => ¬(a = '_' ∧ b = '_') ∧ okRun (b :: t)

/-- Complete case analysis of `pickAcc`: either no element beats the initial
score and the state is unchanged, or the result is the first element
attaining the running maximum — everything before it scores strictly less,
everything after it scores no more. -/
theorem pickAcc_cases {α : Type} (f : α → ℚ) :
    ∀ (l : List α) (st : Option α × ℚ),
    (pickAcc f st l = st ∧ ∀ x ∈ l, f x ≤ st.2) ∨
    (∃ l₁ a l₂, l = l₁ ++ a :: l₂ ∧ pickAcc f st l = (some a, f a) ∧ st.2 < f a ∧
      (∀ x ∈ l₁, f x < f a) ∧ (∀ x ∈ l₂, f x ≤ f a))
  | [], st => Or.inl ⟨rfl, by simp⟩
  | x :: t, st => by
    rcases lt_or_le st.2 (f x) with hgt | hle
    · have hstep : pickAcc f st (x :: t) = pickAcc f (some x, f x) t := by
        simp only [pickAcc, List.foldl_cons, if_pos hgt]
      rcases pickAcc_cases f t (some x, f x) with ⟨heq, hall⟩ | ⟨l₁, a, l₂, hsplit, heq, hlt, hbef, haft⟩
      · refine Or.inr ⟨[], x, t, by simp, ?_, hgt, by simp, ?_⟩
        · rw [hstep, heq]
        · simpa using hall
      · refine Or.inr ⟨x :: l₁, a, l₂, by simp [hsplit], ?_, ?_, ?_, haft⟩
        · rw [hstep, heq]
        · exact lt_trans hgt hlt
        · intro y hy
          rcases List.mem_cons.mp hy with rfl | hy
          · simpa using hlt
          · exact hbef y hy
    · have hstep : pickAcc f st (x :: t) = pickAcc f st t := by
        simp only [pickAcc, List.foldl_cons, if_neg (not_lt.mpr hle)]
      rcases pickAcc_cases f t st with ⟨heq, hall⟩ | ⟨l₁, a, l₂, hsplit, heq, hlt, hbef, haft⟩
      · refine Or.inl ⟨by rw [hstep, heq], ?_⟩
        intro y hy
        rcases List.mem_cons.mp hy with rfl | hy
        · exact hle
        · exact hall y hy
      · refine Or.inr ⟨x :: l₁, a, l₂, by simp [hsplit], by rw [hstep, heq], hlt, ?_, haft⟩
        intro y hy
        rcases List.mem_cons.mp hy with rfl | hy
        · exact lt_of_le_of_lt hle hlt
        · exact hbef y hy

/-- Left folds of pointwise-equal step functions agree. -/
theorem foldl_ext {α β : Type _} (g h : β → α → β) (hgh : ∀ st a, g st a = h st a) :
    ∀ (l : List α) (init : β), l.foldl g init = l.foldl h init
  | [], _ => rfl
  | a :: t, init => by
    rw [List.foldl_cons, List.foldl_cons, hgh]
    exact foldl_ext g h hgh t _

/-- The two successive comparisons of `fuzzyStep` amount to one
strict-greater comparison against the larger of the two similarities. -/
theorem fuzzyStep_eq_pick (fk field_name : String) (st : Option LibField × ℚ)
    (f : LibField) :
    FieldMatcher.fuzzyStep fk field_name st f =
      (if fmScore fk field_name f > st.2 then (some f, fmScore fk field_name f) else st) := by
  rcases st with ⟨b, s⟩
  dsimp only [FieldMatcher.fuzzyStep, fmScore]
  set q1 := strRatio fk f.field_key with hq1
  set q2 := seqRatio (strLower field_name).toList (strLower f.canonical_name).toList with hq2
  by_cases h1 : s < q1
  · by_cases h2 : q1 < q2
    · have hmax : max q1 q2 = q2 := max_eq_right h2.le
      simp only [gt_iff_lt, if_pos h1, if_pos h2, hmax]
      rw [if_pos (h1.trans h2)]
    · have hmax : max q1 q2 = q1 := max_eq_left (not_lt.mp h2)
      simp only [gt_iff_lt, if_pos h1, if_neg h2, hmax]
  · by_cases h2 : s < q2
    · have hmax : max q1 q2 = q2 := max_eq_right ((not_lt.mp h1).trans h2.le)
      simp only [gt_iff_lt, if_neg h1, if_pos h2, hmax]
    · have hc : ¬ s < max q1 q2 := by
        rw [not_lt, max_le_iff]
        exact ⟨not_lt.mp h1, not_lt.mp h2⟩
      simp only [gt_iff_lt, if_neg h1, if_neg h2]
      rw [if_neg hc]

/-- A `pickAcc` run from `(none, 0)` that selects a candidate selects the
first candidate attaining the maximal (positive) score. -/
theorem pickAcc_some {α : Type} (f : α → ℚ) (l : List α) (a : α) (s : ℚ)
    (h : pickAcc f (none, 0) l = (some a, s)) :
    ∃ l₁ l₂, l = l₁ ++ a :: l₂ ∧ s = f a ∧ 0 < f a ∧
      (∀ x ∈ l₁, f x < f a) ∧ (∀ x ∈ l₂, f x ≤ f a) := by
  rcases pickAcc_cases f l (none, 0) with ⟨heq, _⟩ | ⟨l₁, b, l₂, hsplit, heq, hlt, hbef, haft⟩
  · rw [h] at heq
    simp at heq
  · rw [h] at heq
    rw [Prod.ext_iff] at heq
    obtain ⟨hb, hs⟩ := heq
    dsimp only at hb hs
    cases Option.some.inj hb
    exact ⟨l₁, l₂, hsplit, hs, hlt, hbef, haft⟩

/-- A `pickAcc` run from `(none, 0)` that selects nothing saw no positive
score. -/
theorem pickAcc_none {α : Type} (f : α → ℚ) (l : List α) (s : ℚ)
    (h : pickAcc f (none, 0) l = (none, s)) :
    s = 0 ∧ ∀ x ∈ l, f x ≤ 0 := by
  rcases pickAcc_cases f l (none, 0) with ⟨heq, hall⟩ | ⟨l₁, b, l₂, _, heq, _, _, _⟩
  · rw [h] at heq
    exact ⟨congrArg Prod.snd heq, hall⟩
  · rw [h] at heq
    simp at heq

/-- The fuzzy scan of `find_match` is `pickAcc` over `fmScore`. -/
theorem fmFold_eq (fk field_name : String) (catalog : List LibField) :
    catalog.foldl (FieldMatcher.fuzzyStep fk field_name) (none, 0) =
      pickAcc (fmScore fk field_name) (none, 0) catalog := by
  unfold pickAcc
  exact foldl_ext _ _ (fun st a => fuzzyStep_eq_pick fk field_name st a) catalog (none, 0)

/-- The running-best fold behind Python `max(..., key=lambda x: x[1])`:
the result is the initial element or a list element, and its value bounds
the initial value and every list value. -/
theorem maxFoldAux :
    ∀ (t : List (String × Nat)) (x : String × Nat),
      (t.foldl (fun b y => if y.2 > b.2 then y else b) x = x ∨
        t.foldl (fun b y => if y.2 > b.2 then y else b) x ∈ t) ∧
      x.2 ≤ (t.foldl (fun b y => if y.2 > b.2 then y else b) x).2 ∧
      ∀ y ∈ t, y.2 ≤ (t.foldl (fun b y => if y.2 > b.2 then y else b) x).2
  | [], x => ⟨Or.inl rfl, le_refl _, by simp⟩
  | y :: t, x => by
    rw [List.foldl_cons]
    by_cases h : y.2 > x.2
    · rw [if_pos h]
      obtain ⟨hm, hle, hall⟩ := maxFoldAux t y
      refine ⟨?_, le_trans (le_of_lt h) hle, ?_⟩
      · rcases hm with h1 | h1
        · exact Or.inr (by rw [h1]; exact List.mem_cons_self y t)
        · exact Or.inr (List.mem_cons_of_mem y h1)
      · intro z hz
        rcases List.mem_cons.mp hz with rfl | hz
        · exact hle
        · exact hall z hz
    · rw [if_neg h]
      obtain ⟨hm, hle, hall⟩ := maxFoldAux t x
      refine ⟨?_, hle, ?_⟩
      · rcases hm with h1 | h1
        · exact Or.inl h1
        · exact Or.inr (List.mem_cons_of_mem y h1)
      · intro z hz
        rcases List.mem_cons.mp hz with rfl | hz
        · exact le_trans (not_lt.mp h) hle
        · exact hall z hz

/-- A selected maximum is a list element whose value bounds all values. -/
theorem maxFirst_some (l : List (String × Nat)) (m : String × Nat)
    (h : PurposeMatcher.maxFirst l = some m) :
    m ∈ l ∧ ∀ y ∈ l, y.2 ≤ m.2 := by
  cases l with
  | nil => cases h
  | cons x t =>
    have hm := Option.some.inj h
    obtain ⟨hmem, hle, hall⟩ := maxFoldAux t x
    subst hm
    constructor
    · rcases hmem with h1 | h1
      · rw [h1]; exact List.mem_cons_self x t
      · exact List.mem_cons_of_mem x h1
    · intro y hy
      rcases List.mem_cons.mp hy with rfl | hy
      · exact hle
      · exact hall y hy

/-- `maxFirst` returns nothing only on the empty list. -/
theorem maxFirst_none (l : List (String × Nat))
    (h : PurposeMatcher.maxFirst l = none) : l = [] := by
  cases l with
  | nil => rfl
  | cons x t => cases h

namespace PurposeMatcher

/-- `detect_purpose` phrased through `scoredPurposes` and `maxFirst`. -/
theorem detect_purpose_eq (field_name : String) (field_type : Option String) :
    detect_purpose field_name field_type =
      match maxFirst (scoredPurposes field_name field_type) with
      | some best => if best.2 ≥ 10 then some best.1 else none
      | none => none := rfl

/-- Membership in the scored list: exactly the purposes with a positive
score, paired with that score. -/
theorem scored_mem_iff (field_name : String) (field_type : Option String)
    (q : String) (s : Nat) :
    (q, s) ∈ scoredPurposes field_name field_type ↔
      ∃ qd, (q, qd) ∈ FIELD_PURPOSES ∧
        s = purposeScoreN (normNameChars field_name.toList) field_type qd ∧ 0 < s := by
  unfold scoredPurposes
  rw [List.mem_filterMap]
  constructor
  · rintro ⟨kp, hkp, heq⟩
    dsimp only at heq
    by_cases hpos : purposeScoreN (normNameChars field_name.toList) field_type kp.2 > 0
    · rw [if_pos hpos] at heq
      obtain ⟨h1, h2⟩ := Prod.mk.injEq .. ▸ Option.some.inj heq
      exact ⟨kp.2, by rw [← h1]; exact hkp, h2.symm, h2 ▸ hpos⟩
    · rw [if_neg hpos] at heq
      cases heq
  · rintro ⟨qd, hqd, rfl, hpos⟩
    refine ⟨(q, qd), hqd, ?_⟩
    dsimp only
    rw [if_pos hpos]

/-- If `detect_purpose` returns a purpose, that purpose scores at least 10
and no purpose in the taxonomy scores more. -/
theorem detect_purpose_some_spec (field_name : String) (field_type : Option String)
    (p : String) (h : detect_purpose field_name field_type = some p) :
    ∃ pd, (p, pd) ∈ FIELD_PURPOSES ∧
      10 ≤ purposeScoreN (normNameChars field_name.toList) field_type pd ∧
      ∀ q qd, (q, qd) ∈ FIELD_PURPOSES →
        purposeScoreN (normNameChars field_name.toList) field_type qd ≤
          purposeScoreN (normNameChars field_name.toList) field_type pd := by
  rw [detect_purpose_eq] at h
  cases hm : maxFirst (scoredPurposes field_name field_type) with
  | none => rw [hm] at h; cases h
  | some best =>
    rw [hm] at h
    dsimp only at h
    by_cases hge : best.2 ≥ 10
    · rw [if_pos hge] at h
      cases Option.some.inj h
      obtain ⟨hmem, hall⟩ := maxFirst_some _ _ hm
      obtain ⟨pd, hpd, hs, hpos⟩ :=
        (scored_mem_iff field_name field_type best.1 best.2).mp (by
          rcases best with ⟨b1, b2⟩; exact hmem)
      refine ⟨pd, hpd, by rw [← hs]; exact hge, ?_⟩
      intro q qd hqd
      by_cases hq : 0 < purposeScoreN (normNameChars field_name.toList) field_type qd
      · have hqmem : (q, purposeScoreN (normNameChars field_name.toList) field_type qd) ∈
            scoredPurposes field_name field_type :=
          (scored_mem_iff field_name field_type q _).mpr ⟨qd, hqd, rfl, hq⟩
        have := hall _ hqmem
        rw [← hs]
        exact this
      · rw [← hs]
        exact le_trans (Nat.le_of_not_lt hq) (Nat.zero_le _)
    · rw [if_neg hge] at h
      cases h

/-- If `detect_purpose` returns nothing, every purpose scores below 10. -/
theorem detect_purpose_none_spec (field_name : String) (field_type : Option String)
    (h : detect_purpose field_name field_type = none) :
    ∀ q qd, (q, qd) ∈ FIELD_PURPOSES →
      purposeScoreN (normNameChars field_name.toList) field_type qd < 10 := by
  rw [detect_purpose_eq] at h
  intro q qd hqd
  by_cases hq : 0 < purposeScoreN (normNameChars field_name.toList) field_type qd
  · have hqmem : (q, purposeScoreN (normNameChars field_name.toList) field_type qd) ∈
        scoredPurposes field_name field_type :=
      (scored_mem_iff field_name field_type q _).mpr ⟨qd, hqd, rfl, hq⟩
    cases hm : maxFirst (scoredPurposes field_name field_type) with
    | none =>
      rw [maxFirst_none _ hm] at hqmem
      cases hqmem
    | some best =>
      rw [hm] at h
      dsimp only at h
      by_cases hge : best.2 ≥ 10
      · rw [if_pos hge] at h; cases h
      · obtain ⟨_, hall⟩ := maxFirst_some _ _ hm
        exact lt_of_le_of_lt (hall _ hqmem) (Nat.lt_of_not_le hge)
  · exact lt_of_le_of_lt (Nat.le_of_not_lt hq) (by norm_num)

/-- Conversely, a purpose scoring at least 10 forces `detect_purpose` to
return something. -/
theorem detect_purpose_ne_none (field_name : String) (field_type : Option String)
    (q : String) (qd : PurposeDef) (hqd : (q, qd) ∈ FIELD_PURPOSES)
    (hs : 10 ≤ purposeScoreN (normNameChars field_name.toList) field_type qd) :
    detect_purpose field_name field_type ≠ none := by
  intro h
  exact absurd (detect_purpose_none_spec field_name field_type h q qd hqd)
    (Nat.not_lt.mpr hs)

end PurposeMatcher

/-! ## Idempotence machinery for the key normalizer -/

theorem okRun_tail (a : Char) (t : List Char) (h : okRun (a :: t)) : okRun t := by
  cases t with
  | nil => trivial
  | cons b t => exact h.2

theorem okRun_append_right : ∀ (l₁ l₂ : List Char), okRun (l₁ ++ l₂) → okRun l₂
  | [], _, h => h
  | a :: t, l₂, h => okRun_append_right t l₂ (okRun_tail a (t ++ l₂) h)

theorem okRun_append_left : ∀ (l₁ l₂ : List Char), okRun (l₁ ++ l₂) → okRun l₁
  | [], _, _ => trivial
  | [_], _, _ => trivial
  | a :: b :: t, l₂, h => ⟨h.1, okRun_append_left (b :: t) l₂ h.2⟩

/-- `squeezeUnd` keeps the head of the list. -/
theorem squeezeUnd_cons (x : Char) : ∀ (xs : List Char),
    ∃ ys, squeezeUnd (x :: xs) = x :: ys
  | [] => ⟨[], rfl⟩
  | b :: t => by
    by_cases hb : x == '_' && b == '_'
    · obtain ⟨ys, hys⟩ := squeezeUnd_cons b t
      have hx : x = b := by
        rw [Bool.and_eq_true, beq_iff_eq, beq_iff_eq] at hb
        rw [hb.1, hb.2]
      refine ⟨ys, ?_⟩
      rw [show squeezeUnd (x :: b :: t) = squeezeUnd (b :: t) by
        simp only [squeezeUnd, if_pos hb], hys, hx]
    · exact ⟨squeezeUnd (b :: t), by simp only [squeezeUnd, if_neg hb]⟩

/-- The output of `squeezeUnd` has no two adjacent underscores. -/
theorem okRun_squeezeUnd : ∀ (l : List Char), okRun (squeezeUnd l)
  | [] => trivial
  | [c] => trivial
  | a :: b :: t => by
    by_cases hb : a == '_' && b == '_'
    · rw [show squeezeUnd (a :: b :: t) = squeezeUnd (b :: t) by
        simp only [squeezeUnd, if_pos hb]]
      exact okRun_squeezeUnd (b :: t)
    · rw [show squeezeUnd (a :: b :: t) = a :: squeezeUnd (b :: t) by
        simp only [squeezeUnd, if_neg hb]]
      obtain ⟨ys, hys⟩ := squeezeUnd_cons b t
      rw [hys]
      refine ⟨?_, by rw [← hys]; exact okRun_squeezeUnd (b :: t)⟩
      intro hab
      apply hb
      rw [Bool.and_eq_true, beq_iff_eq, beq_iff_eq]
      exact hab

/-- `squeezeUnd` is the identity on lists with no two adjacent
underscores. -/
theorem squeezeUnd_eq_self : ∀ (l : List Char), okRun l → squeezeUnd l = l
  | [], _ => rfl
  | [_], _ => rfl
  | a :: b :: t, h => by
    have hb : ¬(a == '_' && b == '_') = true := by
      rw [Bool.and_eq_true, beq_iff_eq, beq_iff_eq]
      exact h.1
    rw [show squeezeUnd (a :: b :: t) = a :: squeezeUnd (b :: t) by
      simp only [squeezeUnd, if_neg hb]]
    rw [squeezeUnd_eq_self (b :: t) h.2]

/-- `squeezeUnd` only removes characters. -/
theorem mem_squeezeUnd : ∀ (l : List Char) (c : Char), c ∈ squeezeUnd l → c ∈ l
  | [], _, h => h
  | [_], _, h => h
  | a :: b :: t, c, h => by
    by_cases hb : a == '_' && b == '_'
    · rw [show squeezeUnd (a :: b :: t) = squeezeUnd (b :: t) by
        simp only [squeezeUnd, if_pos hb]] at h
      exact List.mem_cons_of_mem a (mem_squeezeUnd (b :: t) c h)
    · rw [show squeezeUnd (a :: b :: t) = a :: squeezeUnd (b :: t) by
        simp only [squeezeUnd, if_neg hb]] at h
      rcases List.mem_cons.mp h with rfl | h
      · exact List.mem_cons_self c (b :: t)
      · exact List.mem_cons_of_mem a (mem_squeezeUnd (b :: t) c h)

/-- `dropWhile` yields a suffix. -/
theorem dropWhile_is_suffix (p : Char → Bool) :
    ∀ (l : List Char), ∃ l₁, l = l₁ ++ l.dropWhile p
  | [] => ⟨[], rfl⟩
  | c :: t => by
    by_cases hc : p c
    · obtain ⟨l₁, hl₁⟩ := dropWhile_is_suffix p t
      exact ⟨c :: l₁, by rw [List.dropWhile_cons_of_pos hc, List.cons_append, ← hl₁]⟩
    · exact ⟨[], by rw [List.dropWhile_cons_of_neg hc, List.nil_append]⟩

/-- The head surviving `dropWhile` fails the predicate. -/
theorem dropWhile_head_not (p : Char → Bool) :
    ∀ (l : List Char) (x : Char), (l.dropWhile p).head? = some x → p x = false
  | [], _, h => by cases h
  | c :: t, x, h => by
    by_cases hc : p c
    · rw [List.dropWhile_cons_of_pos hc] at h
      exact dropWhile_head_not p t x h
    · rw [List.dropWhile_cons_of_neg hc] at h
      cases Option.some.inj h
      exact Bool.eq_false_iff.mpr hc

/-- `dropWhile` is the identity when the head already fails the
predicate. -/
theorem dropWhile_eq_self_of_head (p : Char → Bool) (l : List Char)
    (h : ∀ x, l.head? = some x → p x = false) : l.dropWhile p = l := by
  cases l with
  | nil => rfl
  | cons c t =>
    exact List.dropWhile_cons_of_neg (by rw [h c rfl]; exact Bool.false_ne_true)

/-- `trimUnd` yields a prefix of `dropWhile (· == '_')`. -/
theorem trimUnd_is_prefix_drop (l : List Char) :
    ∃ l₂, l.dropWhile (· == '_') = trimUnd l ++ l₂ := by
  obtain ⟨l₁, hl₁⟩ := dropWhile_is_suffix (· == '_') (l.dropWhile (· == '_')).reverse
  refine ⟨l₁.reverse, ?_⟩
  unfold trimUnd
  calc l.dropWhile (· == '_')
      = (l.dropWhile (· == '_')).reverse.reverse := (List.reverse_reverse _).symm
    _ = (l₁ ++ ((l.dropWhile (· == '_')).reverse.dropWhile (· == '_'))).reverse := by
        rw [← hl₁]
    _ = ((l.dropWhile (· == '_')).reverse.dropWhile (· == '_')).reverse ++ l₁.reverse := by
        rw [List.reverse_append]

/-- A map by a function fixing every element is the identity. -/
theorem map_id_of (f : Char → Char) :
    ∀ (l : List Char), (∀ c ∈ l, f c = c) → l.map f = l
  | [], _ => rfl
  | c :: t, h => by
    rw [List.map_cons, h c (List.mem_cons_self c t),
      map_id_of f t (fun d hd => h d (List.mem_cons_of_mem c hd))]

/-- `Char.toLower` fixes every key character (lowercase letters, digits,
underscore are outside the uppercase range). -/
theorem toLower_fixed (c : Char) (h : isKeyChar c = true) : Char.toLower c = c := by
  unfold Char.toLower
  rw [if_neg]
  unfold isKeyChar at h
  simp only [Bool.or_eq_true, Bool.and_eq_true, decide_eq_true_eq, beq_iff_eq] at h
  rintro ⟨h65, h90⟩
  rcases h with (⟨ha, hb⟩ | ⟨ha, hb⟩) | ha <;> omega

/-- `replUnd` fixes every key character (space and hyphen are not key
characters). -/
theorem replUnd_fixed (c : Char) (h : isKeyChar c = true) : replUnd c = c := by
  unfold replUnd
  rw [if_neg]
  intro hc
  rw [Bool.or_eq_true, beq_iff_eq, beq_iff_eq] at hc
  rcases hc with rfl | rfl <;> simp [isKeyChar] at h

/-- Elements survive `dropWhile` from the original list. -/
theorem mem_dropWhile (p : Char → Bool) (l : List Char) (c : Char)
    (h : c ∈ l.dropWhile p) : c ∈ l := by
  obtain ⟨l₁, hl₁⟩ := dropWhile_is_suffix p l
  rw [hl₁]
  exact List.mem_append_right l₁ h

/-- Elements survive `trimUnd` from the original list. -/
theorem mem_trimUnd (l : List Char) (c : Char) (h : c ∈ trimUnd l) : c ∈ l := by
  unfold trimUnd at h
  rw [List.mem_reverse] at h
  have h2 := mem_dropWhile _ _ _ h
  rw [List.mem_reverse] at h2
  exact mem_dropWhile _ _ _ h2

/-- Every character of a normalized key is a key character. -/
theorem normKeyChars_key (l : List Char) :
    ∀ c ∈ normKeyChars l, isKeyChar c = true := by
  intro c hc
  unfold normKeyChars at hc
  exact List.of_mem_filter (mem_squeezeUnd _ c (mem_trimUnd _ c hc))

/-- `trimUnd` preserves the no-adjacent-underscores invariant. -/
theorem okRun_trimUnd (l : List Char) (h : okRun l) : okRun (trimUnd l) := by
  obtain ⟨l₁, hl₁⟩ := dropWhile_is_suffix (· == '_') l
  have hX : okRun (l.dropWhile (· == '_')) := okRun_append_right l₁ _ (hl₁ ▸ h)
  obtain ⟨l₂, hl₂⟩ := trimUnd_is_prefix_drop l
  exact okRun_append_left _ l₂ (hl₂ ▸ hX)

/-- A normalized key has no two adjacent underscores. -/
theorem okRun_normKeyChars (l : List Char) : okRun (normKeyChars l) :=
  okRun_trimUnd _ (okRun_squeezeUnd _)

/-- The head of a trimmed list is not an underscore. -/
theorem trimUnd_head (l : List Char) :
    ∀ x, (trimUnd l).head? = some x → (x == '_') = false := by
  intro x hx
  obtain ⟨l₂, hl₂⟩ := trimUnd_is_prefix_drop l
  have hX : (l.dropWhile (· == '_')).head? = some x := by
    rw [hl₂, List.head?_append, hx]
    rfl
  exact dropWhile_head_not (· == '_') l x hX

/-- The last element of a trimmed list is not an underscore. -/
theorem trimUnd_last (l : List Char) :
    ∀ x, (trimUnd l).getLast? = some x → (x == '_') = false := by
  intro x hx
  rw [← List.head?_reverse] at hx
  unfold trimUnd at hx
  rw [List.reverse_reverse] at hx
  exact dropWhile_head_not (· == '_') (l.dropWhile (· == '_')).reverse x hx

/-- `trimUnd` is the identity when neither end is an underscore. -/
theorem trimUnd_eq_self (l : List Char)
    (hh : ∀ x, l.head? = some x → (x == '_') = false)
    (hl : ∀ x, l.getLast? = some x → (x == '_') = false) : trimUnd l = l := by
  unfold trimUnd
  rw [dropWhile_eq_self_of_head _ l hh]
  rw [dropWhile_eq_self_of_head _ l.reverse (fun x hx => by
    rw [List.head?_reverse] at hx
    exact hl x hx)]
  exact List.reverse_reverse l

/-- Claim C4 machinery: the `normalize_field_key` character pipeline is
idempotent. -/
theorem normKeyChars_idem (l : List Char) :
    normKeyChars (normKeyChars l) = normKeyChars l := by
  have hkey := normKeyChars_key l
  have hlow : (normKeyChars l).map Char.toLower = normKeyChars l :=
    map_id_of _ _ (fun c hc => toLower_fixed c (hkey c hc))
  have hrepl : (normKeyChars l).map replUnd = normKeyChars l :=
    map_id_of _ _ (fun c hc => replUnd_fixed c (hkey c hc))
  have hfil : (normKeyChars l).filter isKeyChar = normKeyChars l :=
    List.filter_eq_self.mpr hkey
  conv_lhs => rw [normKeyChars, hlow, hrepl, hfil,
    squeezeUnd_eq_self _ (okRun_normKeyChars l)]
  exact trimUnd_eq_self _ (trimUnd_head _) (trimUnd_last _)

/-! ## Merge machinery (claim C7) -/

/-- Membership in the alias-union fold of `merge_fields`. -/
theorem dedupAppend_mem :
    ∀ (l acc : List String) (a : String),
      (a ∈ l.foldl (fun acc x => if acc.contains x then acc else acc ++ [x]) acc) ↔
        a ∈ acc ∨ a ∈ l
  | [], acc, a => by simp
  | x :: t, acc, a => by
    rw [List.foldl_cons]
    by_cases hx : acc.contains x
    · rw [if_pos hx]
      rw [dedupAppend_mem t acc a]
      have hxa : x ∈ acc := List.elem_iff.mp hx
      constructor
      · rintro (h | h)
        · exact Or.inl h
        · exact Or.inr (List.mem_cons_of_mem x h)
      · rintro (h | h)
        · exact Or.inl h
        · rcases List.mem_cons.mp h with rfl | h
          · exact Or.inl hxa
          · exact Or.inr h
    · rw [if_neg hx]
      rw [dedupAppend_mem t (acc ++ [x]) a]
      constructor
      · rintro (h | h)
        · rcases List.mem_append.mp h with h | h
          · exact Or.inl h
          · exact Or.inr (by
              rw [List.mem_singleton.mp h]
              exact List.mem_cons_self x t)
        · exact Or.inr (List.mem_cons_of_mem x h)
      · rintro (h | h)
        · exact Or.inl (List.mem_append_left _ h)
        · rcases List.mem_cons.mp h with rfl | h
          · exact Or.inl (List.mem_append_right _ (List.mem_singleton_self a))
          · exact Or.inr h

/-- The alias-union fold of `merge_fields` introduces no duplicates. -/
theorem dedupAppend_nodup :
    ∀ (l acc : List String), acc.Nodup →
      (l.foldl (fun acc x => if acc.contains x then acc else acc ++ [x]) acc).Nodup
  | [], _, h => h
  | x :: t, acc, h => by
    rw [List.foldl_cons]
    by_cases hx : acc.contains x
    · rw [if_pos hx]
      exact dedupAppend_nodup t acc h
    · rw [if_neg hx]
      refine dedupAppend_nodup t (acc ++ [x]) ?_
      rw [← List.concat_eq_append]
      exact List.Nodup.concat (fun hmem => hx (List.elem_iff.mpr hmem)) h

/-! ## Claim theorems -/

/-- Claim C4, counterexample: the name normalizer of `PurposeMatcher` is not
idempotent.  `normalize_field_name "legal-name" = "legal name"` (the hyphen
becomes a space only after the one-pass filler strip), and a second
application strips the now-exposed filler token `legal`, giving `"name"`. -/
theorem C4_counterexample :
    PurposeMatcher.normalize_field_name (PurposeMatcher.normalize_field_name "legal-name") ≠
      PurposeMatcher.normalize_field_name "legal-name" := by decide

/-- Claim C4 (amended): the key normalizer
(`FieldMatcher.normalize_field_key`, shared character pipeline with
`FieldValidator.normalize_field_key`) is idempotent for every input string;
the name normalizer `PurposeMatcher.normalize_field_name` is not, because
its single filler-stripping pass can expose another filler prefix. -/
theorem C4_key_normalizer_idempotent (s : String) :
    FieldMatcher.normalize_field_key (FieldMatcher.normalize_field_key s) =
      FieldMatcher.normalize_field_key s := by
  unfold FieldMatcher.normalize_field_key
  rw [show (⟨normKeyChars s.toList⟩ : String).toList = normKeyChars s.toList from rfl]
  rw [normKeyChars_idem]

/-- Claim C5, counterexample: on the input `"###"` (no letters or digits)
`FieldMatcher.normalize_field_key` silently returns the empty key, and
`PurposeMatcher.suggest_field_key` silently substitutes the fallback
`custom_field`; neither raises. -/
theorem C5_counterexample :
    FieldMatcher.normalize_field_key "###" = "" ∧
    PurposeMatcher.suggest_field_key "###" "tel" = "custom_field" := by decide

/-- Claim C5 (amended): only the validator path raises on empty
normalization: `FieldValidator.normalize_field_key` errors exactly when the
normalized key is empty (a `ValueError` that `validate_ufl_field` surfaces
as `ValidationError`); `FieldMatcher.normalize_field_key` silently returns
the empty key, and `PurposeMatcher.suggest_field_key` silently substitutes
`custom_field`. -/
theorem C5_only_validator_raises :
    (∀ raw : String,
      (∃ e, FieldValidator.normalize_field_key raw = .error e) ↔
        (⟨normKeyChars raw.toList⟩ : String) = "") ∧
    FieldMatcher.normalize_field_key "###" = "" ∧
    PurposeMatcher.suggest_field_key "###" "tel" = "custom_field" := by
  refine ⟨?_, by decide, by decide⟩
  intro raw
  unfold FieldValidator.normalize_field_key
  by_cases h0 : raw == ""
  · rw [if_pos h0]
    rw [beq_iff_eq] at h0
    subst h0
    exact ⟨(fun _ => by decide), fun _ => ⟨"Field name cannot be empty", rfl⟩⟩
  · rw [if_neg h0]
    by_cases hk : (⟨normKeyChars raw.toList⟩ : String) == ""
    · rw [if_pos hk]
      rw [beq_iff_eq] at hk
      exact ⟨fun _ => hk, fun _ => ⟨"Field name produces empty key after normalization", rfl⟩⟩
    · rw [if_neg hk]
      rw [beq_iff_eq] at hk
      exact ⟨(fun h => by obtain ⟨e, he⟩ := h; cases he), fun hc => absurd hc hk⟩

/-- Claim C7: after `merge_fields(primary, duplicate)` the primary usage
count is the sum of both previous usage counts, the primary alias set is the
union of both alias sets, and (when the primary aliases were duplicate-free)
no alias is duplicated. -/
theorem C7_merge_preserves_usage_and_aliases (p d : LibField) :
    (FieldDeduplicator.merge_fields p d).usage_count = p.usage_count + d.usage_count ∧
    (∀ a : String, a ∈ (FieldDeduplicator.merge_fields p d).common_aliases ↔
      a ∈ p.common_aliases ∨ a ∈ d.common_aliases) ∧
    (p.common_aliases.Nodup → (FieldDeduplicator.merge_fields p d).common_aliases.Nodup) := by
  refine ⟨rfl, ?_, ?_⟩
  · intro a
    show a ∈ FieldDeduplicator.mergedAliases p d ↔ _
    unfold FieldDeduplicator.mergedAliases
    by_cases hemp : d.common_aliases.isEmpty
    · rw [if_pos hemp]
      rw [List.isEmpty_iff.mp hemp]
      simp
    · rw [if_neg hemp]
      exact dedupAppend_mem d.common_aliases p.common_aliases a
  · intro hnd
    show (FieldDeduplicator.mergedAliases p d).Nodup
    unfold FieldDeduplicator.mergedAliases
    by_cases hemp : d.common_aliases.isEmpty
    · rw [if_pos hemp]
      exact hnd
    · rw [if_neg hemp]
      exact dedupAppend_nodup d.common_aliases p.common_aliases hnd

/-- Witness for C7 at a concrete merge: usage 2 + 3 = 5 and the merged
aliases stay duplicate-free. -/
theorem C7_merge_witness :
    (FieldDeduplicator.merge_fields
        ⟨1, "first_name", "First Name", "text", "Personal Information", 2, ["fname"]⟩
        ⟨2, "firstname", "First Name", "text", "Personal Information", 3,
          ["fname", "given name"]⟩).usage_count = 5 ∧
    (FieldDeduplicator.merge_fields
        ⟨1, "first_name", "First Name", "text", "Personal Information", 2, ["fname"]⟩
        ⟨2, "firstname", "First Name", "text", "Personal Information", 3,
          ["fname", "given name"]⟩).common_aliases.Nodup := by
  have h := C7_merge_preserves_usage_and_aliases
    ⟨1, "first_name", "First Name", "text", "Personal Information", 2, ["fname"]⟩
    ⟨2, "firstname", "First Name", "text", "Personal Information", 3, ["fname", "given name"]⟩
  exact ⟨h.1, h.2.2 (by decide)⟩

/-- Claim C8: `detect_purpose` scores every purpose by +10 per keyword
substring of the normalized name, +5 more for a whole-word (exact, leading
or trailing) keyword hit, +20 for a matching declared field type (the
formula `purposeScoreN`), and returns a highest-scoring purpose exactly when
that score reaches the minimum threshold 10. -/
theorem C8_detect_purpose_scoring (field_name : String) (field_type : Option String) :
    (∀ p, PurposeMatcher.detect_purpose field_name field_type = some p →
      ∃ pd, (p, pd) ∈ PurposeMatcher.FIELD_PURPOSES ∧
        10 ≤ PurposeMatcher.purposeScoreN
          (PurposeMatcher.normNameChars field_name.toList) field_type pd ∧
        ∀ q qd, (q, qd) ∈ PurposeMatcher.FIELD_PURPOSES →
          PurposeMatcher.purposeScoreN
              (PurposeMatcher.normNameChars field_name.toList) field_type qd ≤
            PurposeMatcher.purposeScoreN
              (PurposeMatcher.normNameChars field_name.toList) field_type pd) ∧
    (PurposeMatcher.detect_purpose field_name field_type = none →
      ∀ q qd, (q, qd) ∈ PurposeMatcher.FIELD_PURPOSES →
        PurposeMatcher.purposeScoreN
          (PurposeMatcher.normNameChars field_name.toList) field_type qd < 10) ∧
    (∀ q qd, (q, qd) ∈ PurposeMatcher.FIELD_PURPOSES →
      10 ≤ PurposeMatcher.purposeScoreN
        (PurposeMatcher.normNameChars field_name.toList) field_type qd →
      PurposeMatcher.detect_purpose field_name field_type ≠ none) :=
  ⟨PurposeMatcher.detect_purpose_some_spec field_name field_type,
   PurposeMatcher.detect_purpose_none_spec field_name field_type,
   fun q qd hq hs => PurposeMatcher.detect_purpose_ne_none field_name field_type q qd hq hs⟩

set_option maxRecDepth 10000 in
/-- Witness for C8: on the descriptor `("First Name", text)` the detector
returns `identification.first_name`, whose score reaches the threshold and
tops the taxonomy. -/
theorem C8_detect_purpose_witness :
    ∃ pd, ("identification.first_name", pd) ∈ PurposeMatcher.FIELD_PURPOSES ∧
      10 ≤ PurposeMatcher.purposeScoreN
        (PurposeMatcher.normNameChars "First Name".toList) (some "text") pd ∧
      ∀ q qd, (q, qd) ∈ PurposeMatcher.FIELD_PURPOSES →
        PurposeMatcher.purposeScoreN
            (PurposeMatcher.normNameChars "First Name".toList) (some "text") qd ≤
          PurposeMatcher.purposeScoreN
            (PurposeMatcher.normNameChars "First Name".toList) (some "text") pd :=
  (C8_detect_purpose_scoring "First Name" (some "text")).1
    "identification.first_name" (by decide)

/-- Claim C9, counterexample: for the descriptor `("xyz", tel)` no purpose
is detected, and the suggested category is `Other`, not
`Contact Information` — the fallback in `suggest_category` keys on the
field type `phone`, not `tel`. -/
theorem C9_counterexample :
    PurposeMatcher.detect_purpose "xyz" (some "tel") = none ∧
    PurposeMatcher.suggest_category "xyz" "tel" = "Other" ∧
    ("Other" : String) ≠ "Contact Information" := by decide

/-- Claim C9 (amended): when no purpose is detected, the suggested category
is determined solely by the field type as `checkbox` to
Compliance & Declarations, `email`/`phone` (not `tel`) to
Contact Information, `date` to Personal Information, anything else to
Other. -/
theorem C9_fallback_categories (field_name ty : String)
    (h : PurposeMatcher.detect_purpose field_name (some ty) = none) :
    PurposeMatcher.suggest_category field_name ty =
      if ty = "checkbox" then "Compliance & Declarations"
      else if ty = "email" ∨ ty = "phone" then "Contact Information"
      else if ty = "date" then "Personal Information"
      else "Other" := by
  unfold PurposeMatcher.suggest_category
  rw [h]
  simp only [beq_iff_eq, Bool.or_eq_true]

/-- Witness for C9 at the concrete descriptor `("xyz", tel)`. -/
theorem C9_fallback_witness :
    PurposeMatcher.suggest_category "xyz" "tel" =
      if ("tel" : String) = "checkbox" then "Compliance & Declarations"
      else if ("tel" : String) = "email" ∨ ("tel" : String) = "phone" then "Contact Information"
      else if ("tel" : String) = "date" then "Personal Information"
      else "Other" :=
  C9_fallback_categories "xyz" "tel" (by decide)

/-- Claim C10, counterexample: with type `date`, the name
`"social security tax"` is classified as `identification.ssn` — a purpose
whose declared field type is `text`, not a date purpose — because its
keyword score 40 beats the +20 type bonus of every date purpose. -/
theorem C10_counterexample :
    PurposeMatcher.detect_purpose "social security tax" (some "date") =
      some "identification.ssn" ∧
    PurposeMatcher.FIELD_PURPOSES.lookup "identification.ssn" =
      some ⟨["ssn", "social", "security", "tax", "tin"], "text", "string",
        "Personal Information"⟩ ∧
    ("text" : String) ≠ "date" := by decide

/-- Claim C10 (amended): whenever the supplied type equals some purpose
declared field type, that purpose scores at least 20, so `detect_purpose`
always returns some purpose — but not necessarily a purpose of that field
type, since keyword evidence for another purpose can outscore the type
bonus. -/
theorem C10_type_bonus_always_detects (field_name ty : String)
    (q : String) (qd : PurposeDef)
    (hq : (q, qd) ∈ PurposeMatcher.FIELD_PURPOSES) (hty : qd.field_type = ty) :
    PurposeMatcher.detect_purpose field_name (some ty) ≠ none := by
  apply PurposeMatcher.detect_purpose_ne_none field_name (some ty) q qd hq
  unfold PurposeMatcher.purposeScoreN
  have h20 : (if (some ty : Option String) == some qd.field_type then 20 else 0) = 20 := by
    rw [hty]
    simp
  rw [h20]
  exact Nat.le_trans (by norm_num) (Nat.le_add_left 20 _)

/-- Witness for C10: every descriptor of type `date` is assigned some
purpose, at the concrete name `"zzz"` via `identification.dob`. -/
theorem C10_type_bonus_witness :
    PurposeMatcher.detect_purpose "zzz" (some "date") ≠ none :=
  C10_type_bonus_always_detects "zzz" "date" "identification.dob"
    ⟨["birth", "dob", "born"], "date", "date", "Personal Information"⟩
    (by decide) rfl

/-- Weakened form of `pickAcc_some`: the selected candidate is a list
element whose score is maximal. -/
theorem pickAcc_some_max {α : Type} (f : α → ℚ) (l : List α) (a : α) (s : ℚ)
    (h : pickAcc f (none, 0) l = (some a, s)) :
    a ∈ l ∧ s = f a ∧ ∀ x ∈ l, f x ≤ f a := by
  obtain ⟨l₁, l₂, hsplit, hs, hpos, hbef, haft⟩ := pickAcc_some f l a s h
  subst hsplit
  refine ⟨List.mem_append_right _ (List.mem_cons_self a l₂), hs, ?_⟩
  intro x hx
  rcases List.mem_append.mp hx with hx | hx
  · exact le_of_lt (hbef x hx)
  · rcases List.mem_cons.mp hx with rfl | hx
    · exact le_refl _
    · exact haft x hx

/-- Claim C6, counterexample: the CSV import write paths bypass
`normalize_category` — `import_reference_data` creates rows with the
hard-coded category `Reference Data` and `import_field_definitions`
defaults to `General`, both outside the closed taxonomy. -/
theorem C6_counterexample :
    (FieldLibraryImporter.referenceDataField "license_type" "License Type" none).category ∉
      FieldValidator.STANDARD_CATEGORIES ∧
    (FieldLibraryImporter.definitionField "specialty" none none none none none).category ∉
      FieldValidator.STANDARD_CATEGORIES := by decide

/-- Claim C6 (amended): `normalize_category` itself is closed — it returns
the input when it is already standard, otherwise a maximally similar
standard category when that similarity reaches 0.7, otherwise `Other`, and
its output always lies in the closed taxonomy; but the CSV import write
paths bypass it and store `Reference Data` / `General` (see the
counterexample). -/
theorem C6_normalize_category_closed :
    (∀ raw, raw ∈ FieldValidator.STANDARD_CATEGORIES →
      FieldValidator.normalize_category raw = raw) ∧
    (∀ raw, FieldValidator.normalize_category raw ∈ FieldValidator.STANDARD_CATEGORIES) ∧
    (∀ raw c, raw ∉ FieldValidator.STANDARD_CATEGORIES →
      FieldValidator.normalize_category raw = c →
      c = "Other" ∨ (c ∈ FieldValidator.STANDARD_CATEGORIES ∧ 7 / 10 ≤ catScore raw c ∧
        ∀ d ∈ FieldValidator.STANDARD_CATEGORIES, catScore raw d ≤ catScore raw c)) := by
  have hb : ∀ raw, FieldValidator.bestCat raw =
      pickAcc (catScore raw) (none, 0) FieldValidator.STANDARD_CATEGORIES := fun _ => rfl
  refine ⟨?_, ?_, ?_⟩
  · intro raw hmem
    unfold FieldValidator.normalize_category
    have h0 : ¬ (raw == "") = true := by
      intro hb0
      rw [beq_iff_eq] at hb0
      subst hb0
      revert hmem
      decide
    rw [if_neg h0, if_pos hmem]
  · intro raw
    unfold FieldValidator.normalize_category
    by_cases h0 : raw == ""
    · rw [if_pos h0]
      decide
    · rw [if_neg h0]
      by_cases hmem : raw ∈ FieldValidator.STANDARD_CATEGORIES
      · rw [if_pos hmem]
        exact hmem
      · rw [if_neg hmem]
        show (if (FieldValidator.bestCat raw).2 ≥ 7 / 10
          then (FieldValidator.bestCat raw).1.getD "Other" else "Other") ∈ _
        have hOther : ("Other" : String) ∈ FieldValidator.STANDARD_CATEGORIES := by decide
        rcases hpick : FieldValidator.bestCat raw with ⟨ob, s⟩
        cases ob with
        | none =>
          split
          · exact hOther
          · exact hOther
        | some b =>
          rw [hb] at hpick
          obtain ⟨hbm, -, -⟩ := pickAcc_some_max _ _ _ _ hpick
          split
          · exact hbm
          · exact hOther
  · intro raw c hnmem heq
    unfold FieldValidator.normalize_category at heq
    by_cases h0 : raw == ""
    · rw [if_pos h0] at heq
      exact Or.inl heq.symm
    · rw [if_neg h0, if_neg hnmem] at heq
      have heq2 : (if (FieldValidator.bestCat raw).2 ≥ 7 / 10
          then (FieldValidator.bestCat raw).1.getD "Other" else "Other") = c := heq
      clear heq
      rcases hpick : FieldValidator.bestCat raw with ⟨ob, s⟩
      rw [hpick] at heq2
      cases ob with
      | none =>
        rw [hb] at hpick
        obtain ⟨hs0, -⟩ := pickAcc_none _ _ _ hpick
        dsimp only at heq2
        rw [hs0, if_neg (by norm_num)] at heq2
        exact Or.inl heq2.symm
      | some b =>
        rw [hb] at hpick
        obtain ⟨hbm, hs, hall⟩ := pickAcc_some_max _ _ _ _ hpick
        dsimp only at heq2
        by_cases hth : s ≥ 7 / 10
        · rw [if_pos hth] at heq2
          rw [Option.getD_some] at heq2
          subst heq2
          rw [hs] at hth
          refine Or.inr ⟨hbm, hth, ?_⟩
          intro d hd
          exact hall d hd
        · rw [if_neg hth] at heq2
          exact Or.inl heq2.symm

/-- Witness for C6: a standard category is returned unchanged, and a
non-standard spelling still lands inside the closed taxonomy. -/
theorem C6_normalize_category_witness :
    FieldValidator.normalize_category "Education" = "Education" ∧
    FieldValidator.normalize_category "personal info" ∈ FieldValidator.STANDARD_CATEGORIES :=
  ⟨C6_normalize_category_closed.1 "Education" (by decide),
   C6_normalize_category_closed.2.1 "personal info"⟩

set_option maxRecDepth 100000 in
/-- Claim C2, counterexample: `FieldMatcher.find_match` never sees the
descriptor type; for the name `"Date"` it returns the `date`-typed catalog
entry `date` as an exact key match with confidence 1.0, so a `text` field
named "Date" does merge into a `date`-typed entry on this live path
(pdf_interview_extractor.py line 508). -/
theorem C2_counterexample :
    FieldMatcher.find_match "Date"
        [⟨1, "date", "Date", "date", "Personal Information", 7, []⟩] =
      (some ⟨1, "date", "Date", "date", "Personal Information", 7, []⟩, 1,
        some "exact_key") ∧
    (⟨1, "date", "Date", "date", "Personal Information", 7, []⟩ : LibField).field_type =
      "date" := by
  constructor
  · with_unfolding_all decide
  · rfl

/-- Claim C2 (amended): `PurposeMatcher.find_match` never crosses field-type
boundaries — its candidates are filtered to the descriptor type, so any
returned match has exactly that `field_type`; `FieldMatcher.find_match`
ignores the descriptor type entirely and gives no such guarantee (see the
counterexample). -/
theorem C2_purpose_matcher_type_scoped (field_name field_type : String)
    (catalog : List LibField) (f : LibField) (conf : ℚ) (mt : Option String)
    (h : PurposeMatcher.find_match field_name field_type catalog = (some f, conf, mt)) :
    f.field_type = field_type := by
  unfold PurposeMatcher.find_match at h
  cases hd : PurposeMatcher.detect_purpose field_name (some field_type) with
  | none =>
    rw [hd] at h
    simp at h
  | some purpose =>
    rw [hd] at h
    dsimp only at h
    cases hl : PurposeMatcher.FIELD_PURPOSES.lookup purpose with
    | none =>
      rw [hl] at h
      simp at h
    | some pd =>
      rw [hl] at h
      dsimp only at h
      by_cases hemp : (catalog.filter (fun g =>
          g.category == pd.category && g.field_type == field_type)).isEmpty
      · rw [if_pos hemp] at h
        simp at h
      · rw [if_neg hemp] at h
        have h2 : (if (pickAcc (PurposeMatcher.candScore field_name pd) (none, 0)
              (catalog.filter (fun g =>
                g.category == pd.category && g.field_type == field_type))).2 ≥ 1 / 2
            then ((pickAcc (PurposeMatcher.candScore field_name pd) (none, 0)
                (catalog.filter (fun g =>
                  g.category == pd.category && g.field_type == field_type))).1,
              min (pickAcc (PurposeMatcher.candScore field_name pd) (none, 0)
                (catalog.filter (fun g =>
                  g.category == pd.category && g.field_type == field_type))).2 1,
              some "purpose_match")
            else ((none : Option LibField), (0 : ℚ), (none : Option String))) =
            (some f, conf, mt) := h
        clear h
        by_cases hth : (pickAcc (PurposeMatcher.candScore field_name pd) (none, 0)
            (catalog.filter (fun g =>
              g.category == pd.category && g.field_type == field_type))).2 ≥ 1 / 2
        · rw [if_pos hth] at h2
          have h1 : (pickAcc (PurposeMatcher.candScore field_name pd) (none, 0)
              (catalog.filter (fun g =>
                g.category == pd.category && g.field_type == field_type))).1 = some f :=
            congrArg Prod.fst h2
          rcases hpick : pickAcc (PurposeMatcher.candScore field_name pd) (none, 0)
              (catalog.filter (fun g =>
                g.category == pd.category && g.field_type == field_type)) with ⟨ob, s⟩
          rw [hpick] at h1
          dsimp only at h1
          subst h1
          obtain ⟨hmem, -, -⟩ := pickAcc_some_max _ _ _ _ hpick
          have hp := List.of_mem_filter hmem
          rw [Bool.and_eq_true, beq_iff_eq, beq_iff_eq] at hp
          exact hp.2
        · rw [if_neg hth] at h2
          simp at h2

set_option maxRecDepth 100000 in
/-- Witness for C2 at a concrete purpose match: the matched entry has the
descriptor type `text`. -/
theorem C2_purpose_matcher_type_witness :
    (⟨1, "first_name_x", "First Name X", "text", "Personal Information", 1, []⟩ :
      LibField).field_type = "text" :=
  C2_purpose_matcher_type_scoped "First Name" "text"
    [⟨1, "first_name_x", "First Name X", "text", "Personal Information", 1, []⟩]
    ⟨1, "first_name_x", "First Name X", "text", "Personal Information", 1, []⟩
    (1 / 2) (some "purpose_match") (by with_unfolding_all decide)

set_option maxRecDepth 1000000 in
/-- Claim C3, counterexample: two candidates with exactly equal match
scores (0.3 + 0.2 each).  The matcher returns whichever is enumerated
first — with the lower-usage candidate first it wins despite
`usage_count` 1 < 5, and swapping the catalog order swaps the winner — so
there is no usage-count or field-key tie-break and the result depends on
enumeration order. -/
theorem C3_counterexample :
    PurposeMatcher.detect_purpose "First Name" (some "text") =
      some "identification.first_name" ∧
    PurposeMatcher.FIELD_PURPOSES.lookup "identification.first_name" =
      some ⟨["first", "given", "forename", "fname"], "text", "string",
        "Personal Information"⟩ ∧
    PurposeMatcher.candScore "First Name"
        ⟨["first", "given", "forename", "fname"], "text", "string", "Personal Information"⟩
        ⟨1, "first_a", "First Zz", "text", "Personal Information", 1, []⟩ =
      PurposeMatcher.candScore "First Name"
        ⟨["first", "given", "forename", "fname"], "text", "string", "Personal Information"⟩
        ⟨2, "first_b", "First Zz", "text", "Personal Information", 5, []⟩ ∧
    (⟨1, "first_a", "First Zz", "text", "Personal Information", 1, []⟩ : LibField).usage_count <
      (⟨2, "first_b", "First Zz", "text", "Personal Information", 5, []⟩ : LibField).usage_count ∧
    (PurposeMatcher.find_match "First Name" "text"
        [⟨1, "first_a", "First Zz", "text", "Personal Information", 1, []⟩,
         ⟨2, "first_b", "First Zz", "text", "Personal Information", 5, []⟩]).1 =
      some ⟨1, "first_a", "First Zz", "text", "Personal Information", 1, []⟩ ∧
    (PurposeMatcher.find_match "First Name" "text"
        [⟨2, "first_b", "First Zz", "text", "Personal Information", 5, []⟩,
         ⟨1, "first_a", "First Zz", "text", "Personal Information", 1, []⟩]).1 =
      some ⟨2, "first_b", "First Zz", "text", "Personal Information", 5, []⟩ ∧
    (⟨1, "first_a", "First Zz", "text", "Personal Information", 1, []⟩ : LibField) ≠
      ⟨2, "first_b", "First Zz", "text", "Personal Information", 5, []⟩ := by
  with_unfolding_all decide

/-- Claim C3 (amended): on equal scores the matcher keeps the
earlier-enumerated candidate (the fold replaces the running best only on a
strictly greater score): every `purpose_match` winner is the first candidate
attaining the maximal score — everything enumerated before it scores
strictly less, everything after it scores no more.  No `usage_count` or
`field_key` tie-break exists, so equal scorers are resolved by catalog
enumeration order. -/
theorem C3_first_equal_scorer_wins (field_name field_type : String)
    (catalog : List LibField) (f : LibField) (conf : ℚ)
    (h : PurposeMatcher.find_match field_name field_type catalog =
      (some f, conf, some "purpose_match")) :
    ∃ purpose pd l₁ l₂,
      PurposeMatcher.detect_purpose field_name (some field_type) = some purpose ∧
      PurposeMatcher.FIELD_PURPOSES.lookup purpose = some pd ∧
      catalog.filter (fun g => g.category == pd.category && g.field_type == field_type) =
        l₁ ++ f :: l₂ ∧
      (∀ x ∈ l₁, PurposeMatcher.candScore field_name pd x <
        PurposeMatcher.candScore field_name pd f) ∧
      (∀ x ∈ l₂, PurposeMatcher.candScore field_name pd x ≤
        PurposeMatcher.candScore field_name pd f) := by
  unfold PurposeMatcher.find_match at h
  cases hd : PurposeMatcher.detect_purpose field_name (some field_type) with
  | none =>
    rw [hd] at h
    simp at h
  | some purpose =>
    rw [hd] at h
    dsimp only at h
    cases hl : PurposeMatcher.FIELD_PURPOSES.lookup purpose with
    | none =>
      rw [hl] at h
      simp at h
    | some pd =>
      rw [hl] at h
      dsimp only at h
      by_cases hemp : (catalog.filter (fun g =>
          g.category == pd.category && g.field_type == field_type)).isEmpty
      · rw [if_pos hemp] at h
        simp at h
      · rw [if_neg hemp] at h
        have h2 : (if (pickAcc (PurposeMatcher.candScore field_name pd) (none, 0)
              (catalog.filter (fun g =>
                g.category == pd.category && g.field_type == field_type))).2 ≥ 1 / 2
            then ((pickAcc (PurposeMatcher.candScore field_name pd) (none, 0)
                (catalog.filter (fun g =>
                  g.category == pd.category && g.field_type == field_type))).1,
              min (pickAcc (PurposeMatcher.candScore field_name pd) (none, 0)
                (catalog.filter (fun g =>
                  g.category == pd.category && g.field_type == field_type))).2 1,
              some "purpose_match")
            else ((none : Option LibField), (0 : ℚ), (none : Option String))) =
            (some f, conf, some "purpose_match") := h
        clear h
        by_cases hth : (pickAcc (PurposeMatcher.candScore field_name pd) (none, 0)
            (catalog.filter (fun g =>
              g.category == pd.category && g.field_type == field_type))).2 ≥ 1 / 2
        · rw [if_pos hth] at h2
          have h1 : (pickAcc (PurposeMatcher.candScore field_name pd) (none, 0)
              (catalog.filter (fun g =>
                g.category == pd.category && g.field_type == field_type))).1 = some f :=
            congrArg Prod.fst h2
          rcases hpick : pickAcc (PurposeMatcher.candScore field_name pd) (none, 0)
              (catalog.filter (fun g =>
                g.category == pd.category && g.field_type == field_type)) with ⟨ob, s⟩
          rw [hpick] at h1
          dsimp only at h1
          subst h1
          obtain ⟨l₁, l₂, hsplit, -, -, hbef, haft⟩ := pickAcc_some _ _ _ _ hpick
          exact ⟨purpose, pd, l₁, l₂, rfl, hl, hsplit, hbef, haft⟩
        · rw [if_neg hth] at h2
          simp at h2

set_option maxRecDepth 1000000 in
/-- Witness for C3 at the two-candidate catalog of the counterexample: the
winner is the first maximal scorer. -/
theorem C3_first_equal_scorer_witness :
    ∃ purpose pd l₁ l₂,
      PurposeMatcher.detect_purpose "First Name" (some "text") = some purpose ∧
      PurposeMatcher.FIELD_PURPOSES.lookup purpose = some pd ∧
      [⟨1, "first_a", "First Zz", "text", "Personal Information", 1, []⟩,
       ⟨2, "first_b", "First Zz", "text", "Personal Information", 5, []⟩].filter
          (fun g => g.category == pd.category && g.field_type == "text") =
        l₁ ++ (⟨1, "first_a", "First Zz", "text", "Personal Information", 1, []⟩ : LibField) :: l₂ ∧
      (∀ x ∈ l₁, PurposeMatcher.candScore "First Name" pd x <
        PurposeMatcher.candScore "First Name" pd
          ⟨1, "first_a", "First Zz", "text", "Personal Information", 1, []⟩) ∧
      (∀ x ∈ l₂, PurposeMatcher.candScore "First Name" pd x ≤
        PurposeMatcher.candScore "First Name" pd
          ⟨1, "first_a", "First Zz", "text", "Personal Information", 1, []⟩) :=
  C3_first_equal_scorer_wins "First Name" "text"
    [⟨1, "first_a", "First Zz", "text", "Personal Information", 1, []⟩,
     ⟨2, "first_b", "First Zz", "text", "Personal Information", 5, []⟩]
    ⟨1, "first_a", "First Zz", "text", "Personal Information", 1, []⟩
    (1 / 2) (by with_unfolding_all decide)

set_option maxRecDepth 1000000 in
/-- Claim C1, counterexample: a catalog where the exact-key and alias
stages fail and the purpose taxonomy clears its threshold
(`PurposeMatcher.find_match` returns a `purpose_match`), yet the matcher
that implements the exact-then-alias precedence
(`FieldMatcher.find_match`) consults the fuzzy scorer and returns
`fuzzy_match` — there is no single pipeline running
exact / alias / purpose / fuzzy in sequence. -/
theorem C1_counterexample :
    findByKey [⟨1, "first_name_x", "First Name X", "text", "Personal Information", 1, []⟩]
        (FieldMatcher.normalize_field_key "First Name") = none ∧
    FieldMatcher.aliasLookup
        [⟨1, "first_name_x", "First Name X", "text", "Personal Information", 1, []⟩]
        (FieldMatcher.normalize_field_key "First Name") = none ∧
    (PurposeMatcher.find_match "First Name" "text"
        [⟨1, "first_name_x", "First Name X", "text", "Personal Information", 1, []⟩]).2.2 =
      some "purpose_match" ∧
    (FieldMatcher.find_match "First Name"
        [⟨1, "first_name_x", "First Name X", "text", "Personal Information", 1, []⟩]).2.2 =
      some "fuzzy_match" := by
  with_unfolding_all decide

/-- Claim C1 (amended): `FieldMatcher.find_match` stages are exact key
(confidence 1.0, `exact_key`), then alias (0.95, `alias_match`), then fuzzy
(threshold 0.8, `fuzzy_match`), each with early exit; the purpose taxonomy
is not part of this pipeline, so it never returns `purpose_match` — the
purpose stage lives only in the separate `PurposeMatcher.find_match` used
by application-type creation.  Whenever some catalog entry carries the
exact normalized key, the pipeline returns the first such entry with
confidence 1.0 and type `exact_key`. -/
theorem C1_match_pipeline_staging (field_name : String) (catalog : List LibField) :
    (FieldMatcher.find_match field_name catalog).2.2 ≠ some "purpose_match" ∧
    ((∃ f ∈ catalog, f.field_key = FieldMatcher.normalize_field_key field_name) →
      ∃ f ∈ catalog, f.field_key = FieldMatcher.normalize_field_key field_name ∧
        FieldMatcher.find_match field_name catalog = (some f, 1, some "exact_key")) := by
  constructor
  · intro hc
    unfold FieldMatcher.find_match at hc
    dsimp only at hc
    cases hfk : findByKey catalog (FieldMatcher.normalize_field_key field_name) with
    | some f =>
      rw [hfk] at hc
      exact absurd (Option.some.inj hc) (by decide)
    | none =>
      rw [hfk] at hc
      dsimp only at hc
      cases hal : FieldMatcher.aliasLookup catalog
          (FieldMatcher.normalize_field_key field_name) with
      | some f =>
        rw [hal] at hc
        exact absurd (Option.some.inj hc) (by decide)
      | none =>
        rw [hal] at hc
        dsimp only at hc
        by_cases hth : (catalog.foldl
            (FieldMatcher.fuzzyStep (FieldMatcher.normalize_field_key field_name) field_name)
            (none, 0)).2 ≥ 8 / 10
        · rw [if_pos hth] at hc
          exact absurd (Option.some.inj hc) (by decide)
        · rw [if_neg hth] at hc
          cases hc
  · rintro ⟨f0, hf0, hkey⟩
    cases hfk : findByKey catalog (FieldMatcher.normalize_field_key field_name) with
    | none =>
      exfalso
      unfold findByKey at hfk
      rw [List.find?_eq_none] at hfk
      exact hfk f0 hf0 (by rw [beq_iff_eq]; exact hkey)
    | some f =>
      refine ⟨f, List.mem_of_find?_eq_some hfk, ?_, ?_⟩
      · have := List.find?_some hfk
        rw [beq_iff_eq] at this
        exact this
      · unfold FieldMatcher.find_match
        dsimp only
        rw [hfk]

/-- Witness for C1: with `zip_code` in the catalog, the input `"ZIP Code"`
resolves at the exact-key stage with confidence 1.0. -/
theorem C1_exact_stage_witness :
    ∃ f ∈ [(⟨3, "zip_code", "ZIP Code", "text", "Contact Information", 3, []⟩ : LibField)],
      f.field_key = FieldMatcher.normalize_field_key "ZIP Code" ∧
        FieldMatcher.find_match "ZIP Code"
            [⟨3, "zip_code", "ZIP Code", "text", "Contact Information", 3, []⟩] =
          (some f, 1, some "exact_key") :=
  (C1_match_pipeline_staging "ZIP Code"
      [⟨3, "zip_code", "ZIP Code", "text", "Contact Information", 3, []⟩]).2
    (by decide)
